import Mathlib

/-!
Verification development for the preprocessing manager of the `ansikten`
repository (frontend preprocessing-manager module).

The JavaScript `PreprocessingManager` class is shallowly embedded as pure
functions over an explicit `ManagerState`.  JS `Map`s are modelled as
insertion-ordered association lists, JS `Set`s as duplicate-free
insertion-ordered lists.  The asynchronous `_processFile` pipeline is
modelled in two parts: a pure decision function `processFile` over an
environment recording the backend responses of each stage, and an atomic
`settle` step applying a worker's terminal effect to the manager state
(the body of the terminal branch of `_processFile` together with the
`.catch`/`.finally` continuations installed by `_processNext` and
`_forceProcessFile`).
-/

namespace Ansikten

/-- JS `Map.get`: first binding of the key in the association list. -/
def mapGet : List (String × α) → String → Option α
  | [], _ => none
  | e :: m, k => if e.1 == k then some e.2 else mapGet m k

/-- JS `Map.has`. -/
def mapHas (m : List (String × α)) (k : String) : Bool :=
  (mapGet m k).isSome

/-- JS `Map.set`: overwrite in place if present (keeping insertion order,
keys are unique in a JS `Map`), else append at the end. -/
def mapSet : List (String × α) → String → α → List (String × α)
  | [], k, v => [(k, v)]
  | e :: m, k, v => if e.1 == k then (k, v) :: m else e :: mapSet m k v

/-- JS `Map.delete`. -/
def mapDelete (m : List (String × α)) (k : String) : List (String × α) :=
  m.filter (fun e => e.1 != k)

/-- JS `Array.prototype.indexOf` followed by `splice(index, 1)`: remove the
first occurrence, if any. -/
def listRemoveFirst : List String → String → List String
  | [], _ => []
  | x :: xs, p => if x == p then xs else x :: listRemoveFirst xs p

/-- JS `Set.add`: append if not already a member. -/
def setAdd (l : List String) (p : String) : List String :=
  if l.contains p then l else l ++ [p]

/-- The `PreprocessingStatus` enum of the source. -/
inductive PreprocessingStatus
  | pending
  | hashing
  | nefConverting
  | detectingFaces
  | generatingThumbnails
  | completed
  | error
  | cached
  | fileNotFound
deriving DecidableEq, Repr

/-- The `this.steps` configuration record. -/
structure Steps where
  nefConversion : Bool
  faceDetection : Bool
  thumbnails : Bool
deriving DecidableEq, Repr

/-- The `this.rollingWindow` configuration record. -/
structure RollingWindowConfig where
  maxReadyItems : Nat
  minQueueBuffer : Nat
  resumeThreshold : Nat
deriving DecidableEq, Repr

/-- A `this.completed` map entry.  The source stores
`{ hash, ...cacheData, completedAt }`; only the `hash` field is read by
the operations under study (`removeFile`, `_clearDoneItems`), so the
remaining payload is not represented. -/
structure CompletedEntry where
  hash : String
deriving DecidableEq, Repr

/-- The mutable state of a `PreprocessingManager` instance.  `processing`
entries store the `status` field of the per-file record (the
`startTime` / `error` message payload is not read by any decision). -/
structure ManagerState where
  maxWorkers : Nat
  enabled : Bool
  steps : Steps
  rollingWindow : RollingWindowConfig
  queue : List String
  processing : List (String × PreprocessingStatus)
  completed : List (String × CompletedEntry)
  activeWorkers : Nat
  isPaused : Bool
  doneItems : List String
  doneCount : Nat
deriving DecidableEq, Repr

/-- Optional fields of the constructor `options` object (absent = JS
`undefined`). -/
structure StepsOptions where
  nefConversion : Option Bool := none
  faceDetection : Option Bool := none
  thumbnails : Option Bool := none
deriving DecidableEq, Repr

/-- Optional fields of `options.rollingWindow` / `config.rollingWindow`. -/
structure RollingWindowOptions where
  maxReadyItems : Option Nat := none
  minQueueBuffer : Option Nat := none
  resumeThreshold : Option Nat := none
deriving DecidableEq, Repr

/-- The constructor `options` object. -/
structure ManagerOptions where
  maxWorkers : Option Nat := none
  enabled : Option Bool := none
  steps : Option StepsOptions := none
  rollingWindow : Option RollingWindowOptions := none
deriving DecidableEq, Repr

/-- The `PreprocessingManager` constructor.  `options.maxWorkers || 2`
treats the falsy value `0` as absent; the `??` defaults mirror the
source. -/
def mkManager (o : ManagerOptions) : ManagerState :=
  { maxWorkers :=
      match o.maxWorkers with
      | some n => if n = 0 then 2 else n
      | none => 2
    enabled := !(o.enabled == some false)
    steps :=
      { nefConversion := ((o.steps.bind StepsOptions.nefConversion).getD true)
        faceDetection := ((o.steps.bind StepsOptions.faceDetection).getD true)
        thumbnails := ((o.steps.bind StepsOptions.thumbnails).getD true) }
    rollingWindow :=
      { maxReadyItems := ((o.rollingWindow.bind RollingWindowOptions.maxReadyItems).getD 15)
        minQueueBuffer := ((o.rollingWindow.bind RollingWindowOptions.minQueueBuffer).getD 10)
        resumeThreshold := ((o.rollingWindow.bind RollingWindowOptions.resumeThreshold).getD 5) }
    queue := []
    processing := []
    completed := []
    activeWorkers := 0
    isPaused := false
    doneItems := []
    doneCount := 0 }

/-- Source `getReadyCount`: completed entries not yet marked done. -/
def getReadyCount (s : ManagerState) : Nat :=
  (s.completed.filter (fun e => !(s.doneItems.contains e.1))).length

/-- Source `shouldPause`. -/
def shouldPause (s : ManagerState) : Bool :=
  decide (s.rollingWindow.minQueueBuffer ≤ getReadyCount s) && decide (0 < s.queue.length)

/-- Source `shouldResume`. -/
def shouldResume (s : ManagerState) : Bool :=
  s.isPaused && decide (s.rollingWindow.resumeThreshold ≤ s.doneCount)

/-- Source `_pauseProcessing`. -/
def pauseProcessing (s : ManagerState) : ManagerState :=
  if s.isPaused then s else { s with isPaused := true }

/-- The `while` loop body of `_processNext`: while a worker slot is free
and the queue is non-empty, shift the head into `processing` with status
`HASHING` and increment `activeWorkers`; a falsy (empty) path is shifted
off and the loop breaks.  `fuel` bounds the iteration count and is
instantiated with the queue length. -/
def dispatch : Nat → ManagerState → ManagerState
  | 0, s => s
  | fuel + 1, s =>
    if s.activeWorkers < s.maxWorkers then
      match s.queue with
      | [] => s
      | p :: rest =>
        if p == "" then { s with queue := rest }
        else
          dispatch fuel
            { s with
              queue := rest
              activeWorkers := s.activeWorkers + 1
              processing := mapSet s.processing p PreprocessingStatus.hashing }
    else s

/-- Source `_processNext`. -/
def processNext (s : ManagerState) : ManagerState :=
  if shouldPause s && !s.isPaused then pauseProcessing s
  else if s.isPaused then s
  else if s.rollingWindow.maxReadyItems ≤ getReadyCount s then s
  else dispatch s.queue.length s

/-- Source `_forceProcessFile`: start a worker for a queued path unconditionally
(no `activeWorkers < maxWorkers` check). -/
def forceProcessFile (p : String) (s : ManagerState) : ManagerState :=
  if s.queue.contains p then
    { s with
      queue := listRemoveFirst s.queue p
      activeWorkers := s.activeWorkers + 1
      processing := mapSet s.processing p PreprocessingStatus.hashing }
  else s

/-- The `options` argument of `addToQueue`. -/
structure QueueOptions where
  priority : Bool := false
  force : Bool := false
deriving DecidableEq, Repr

/-- Source `addToQueue`. -/
def addToQueue (p : String) (o : QueueOptions) (s : ManagerState) : ManagerState :=
  if !s.enabled then s
  else if s.queue.contains p || mapHas s.processing p || mapHas s.completed p then s
  else
    let s1 := { s with queue := if o.priority then p :: s.queue else s.queue ++ [p] }
    if o.force && s1.isPaused then forceProcessFile p s1
    else processNext s1

/-- Source `_clearDoneItems`: purge up to `min doneCount resumeThreshold` items
from the front of `doneItems`, deleting each from `completed` and
collecting the hashes of those that had a completed entry; returns the
new state paired with the emitted `cache-cleared` hash list. -/
def clearDoneItems (s : ManagerState) : ManagerState × List String :=
  let toRemove := min s.doneCount s.rollingWindow.resumeThreshold
  let purged := s.doneItems.take toRemove
  let removedHashes := purged.filterMap (fun p => (mapGet s.completed p).map CompletedEntry.hash)
  ({ s with
      completed := purged.foldl (fun c p => mapDelete c p) s.completed
      doneItems := s.doneItems.drop toRemove
      doneCount := s.doneCount - purged.length },
   removedHashes)

/-- Source `_resumeProcessing`: when paused, clear done items, unset the pause
flag and re-run the dispatcher; returns the state paired with the
`cache-cleared` hashes. -/
def resumeProcessing (s : ManagerState) : ManagerState × List String :=
  if !s.isPaused then (s, [])
  else
    let c := clearDoneItems s
    (processNext { c.1 with isPaused := false }, c.2)

/-- Source `markDone`: returns the new state, whether a resume transition fired
(`_resumeProcessing` body ran), and the `cache-cleared` hashes. -/
def markDone (p : String) (s : ManagerState) : ManagerState × Bool × List String :=
  if !(mapHas s.completed p) then (s, false, [])
  else
    let s1 := { s with doneItems := setAdd s.doneItems p, doneCount := s.doneCount + 1 }
    if shouldResume s1 then
      let r := resumeProcessing s1
      (r.1, true, r.2)
    else (s1, false, [])

/-- Source `removeFile`: returns the new state paired with the hash of the
removed completed entry, if any. -/
def removeFile (p : String) (s : ManagerState) : ManagerState × Option String :=
  let hash := (mapGet s.completed p).map CompletedEntry.hash
  let wasDone := s.doneItems.contains p
  ({ s with
      completed := mapDelete s.completed p
      doneItems := s.doneItems.filter (fun q => q != p)
      processing := mapDelete s.processing p
      queue := listRemoveFirst s.queue p
      doneCount := if wasDone && decide (0 < s.doneCount) then s.doneCount - 1 else s.doneCount },
   hash)

/-- Source `clearCompleted`: clears the completed map only. -/
def clearCompleted (s : ManagerState) : ManagerState :=
  { s with completed := [] }

/-- Source `stop`: clear the queue; in-flight workers continue. -/
def stop (s : ManagerState) : ManagerState :=
  { s with queue := [] }

/-- Source `getStatus`: the `status` field of the returned record. -/
def getStatus (p : String) (s : ManagerState) : Option PreprocessingStatus :=
  if mapHas s.completed p then some PreprocessingStatus.completed
  else
    match mapGet s.processing p with
    | some st => some st
    | none => if s.queue.contains p then some PreprocessingStatus.pending else none

/-- The partial-update object accepted by `updateConfig`. -/
structure ConfigUpdate where
  maxWorkers : Option Nat := none
  enabled : Option Bool := none
  steps : Option StepsOptions := none
  rollingWindow : Option RollingWindowOptions := none
deriving DecidableEq, Repr

/-- Spread-merge `{ ...this.steps, ...config.steps }`. -/
def mergeSteps (s : Steps) (u : StepsOptions) : Steps :=
  { nefConversion := u.nefConversion.getD s.nefConversion
    faceDetection := u.faceDetection.getD s.faceDetection
    thumbnails := u.thumbnails.getD s.thumbnails }

/-- Spread-merge `{ ...this.rollingWindow, ...config.rollingWindow }`. -/
def mergeRollingWindow (w : RollingWindowConfig) (u : RollingWindowOptions) : RollingWindowConfig :=
  { maxReadyItems := u.maxReadyItems.getD w.maxReadyItems
    minQueueBuffer := u.minQueueBuffer.getD w.minQueueBuffer
    resumeThreshold := u.resumeThreshold.getD w.resumeThreshold }

/-- Source `updateConfig`: installs every provided field with no validation. -/
def updateConfig (c : ConfigUpdate) (s : ManagerState) : ManagerState :=
  let s1 := match c.maxWorkers with
            | some n => { s with maxWorkers := n }
            | none => s
  let s2 := match c.enabled with
            | some b => { s1 with enabled := b }
            | none => s1
  let s3 := match c.steps with
            | some u => { s2 with steps := mergeSteps s2.steps u }
            | none => s2
  match c.rollingWindow with
  | some u => { s3 with rollingWindow := mergeRollingWindow s3.rollingWindow u }
  | none => s3

/-- The ordering `max_ready_items ≥ min_queue_buffer > resume_threshold ≥ 1`
that the specification calls a configuration-time invariant. -/
def validRollingWindow (w : RollingWindowConfig) : Prop :=
  w.minQueueBuffer ≤ w.maxReadyItems ∧
  w.resumeThreshold < w.minQueueBuffer ∧
  1 ≤ w.resumeThreshold

instance (w : RollingWindowConfig) : Decidable (validRollingWindow w) := by
  unfold validRollingWindow; infer_instance

/-- JS `String.prototype.split('.')` over a character list: splits on
every dot, keeping empty components (`"a."` → `["a", ""]`, `""` →
`[""]`). -/
def jsSplitDots : List Char → List (List Char)
  | [] => [[]]
  | c :: cs =>
    let r := jsSplitDots cs
    if c = '.' then [] :: r
    else
      match r with
      | [] => [[c]]
      | x :: xs => (c :: x) :: xs

/-- Source `_isRawFile`: lowercase the path, split on `.`, take the last
component (JS `pop()`), membership in the RAW extension list. -/
def isRawFile (p : String) : Bool :=
  let ext := String.mk ((jsSplitDots (p.data.map Char.toLower)).getLastD [])
  ["nef", "cr2", "arw", "raw"].contains ext

/-- Outcome of the `/api/preprocessing/hash` call in `_processFile`:
success with a digest, a 404 (message contains `404`), or any other
failure (re-thrown as `Hash computation failed`). -/
inductive HashOutcome
  | ok (h : String)
  | notFound404
  | failed
deriving DecidableEq, Repr

/-- The `/api/preprocessing/check` response flags read by `_processFile`. -/
structure CacheCheck where
  has_nef_conversion : Bool
  has_face_detection : Bool
  has_thumbnails : Bool
deriving DecidableEq, Repr

/-- Outcome of one stage POST (`/nef`, `/faces`, `/thumbnails`):
the `result.status` value on a normal return, or a thrown error. -/
inductive StageOutcome
  | completed
  | cached
  | errorStatus
  | otherStatus
  | thrown
deriving DecidableEq, Repr

/-- The backend responses a single `_processFile` run observes. -/
structure PipelineEnv where
  hashResult : HashOutcome
  cacheCheck : CacheCheck
  nefResult : StageOutcome
  facesResult : StageOutcome
  thumbsResult : StageOutcome
deriving DecidableEq, Repr

/-- The stage POSTs `_processFile` can issue after the cache probe. -/
inductive StageCall
  | nefCall
  | facesCall
  | thumbsCall
deriving DecidableEq, Repr

/-- How a `_processFile` run terminates: early completion at the cache
probe, completion after the stage sequence, the `hasErrors` error state,
the graceful file-not-found return, or an exception propagated to the
caller's `.catch` (which records status ERROR). -/
inductive TermKind
  | completedEarly
  | completedFull
  | errored
  | notFound
  | raised
deriving DecidableEq, Repr

/-- Result of one `_processFile` run: the stage calls issued and the
termination kind. -/
structure ProcessResult where
  calls : List StageCall
  term : TermKind
deriving DecidableEq, Repr

/-- A stage outcome that sets the `hasErrors` flag for the face-detection
and thumbnail stages: `result.status === 'error'` or a thrown error. -/
def stageFail (o : StageOutcome) : Bool :=
  o == StageOutcome.errorStatus || o == StageOutcome.thrown

/-- The decision logic of `_processFile`: which stage calls are issued and
how the run terminates, as a function of the configured steps, the path
(for the RAW check) and the observed backend responses.  The NEF stage
result never feeds `hasErrors` (its `catch` only logs and continues). -/
def processFile (steps : Steps) (p : String) (env : PipelineEnv) : ProcessResult :=
  match env.hashResult with
  | HashOutcome.notFound404 => ⟨[], TermKind.notFound⟩
  | HashOutcome.failed => ⟨[], TermKind.raised⟩
  | HashOutcome.ok _ =>
    let cc := env.cacheCheck
    if cc.has_nef_conversion && cc.has_face_detection && cc.has_thumbnails then
      ⟨[], TermKind.completedEarly⟩
    else
      let nefCalled := steps.nefConversion && isRawFile p && !cc.has_nef_conversion
      let facesCalled := steps.faceDetection && !cc.has_face_detection
      let thumbsCalled := steps.thumbnails && !cc.has_thumbnails
      let hasErrors :=
        (facesCalled && stageFail env.facesResult) ||
        (thumbsCalled && stageFail env.thumbsResult)
      ⟨(if nefCalled then [StageCall.nefCall] else []) ++
       (if facesCalled then [StageCall.facesCall] else []) ++
       (if thumbsCalled then [StageCall.thumbsCall] else []),
       if hasErrors then TermKind.errored else TermKind.completedFull⟩

/-- Events emitted by the terminal branch of a worker run. -/
inductive ManagerEvent
  | fileNotFoundEvt (p : String)
  | errorEvt (p : String)
  | completedEvt (p : String)
deriving DecidableEq, Repr

/-- The event emitted when a `_processFile` run reaches its terminal
branch: `file-not-found`, `error` (from `hasErrors` or from the caller's
`.catch`), or `completed` (via `_completeFile`). -/
def terminalEvents (p : String) (t : TermKind) : List ManagerEvent :=
  match t with
  | TermKind.notFound => [ManagerEvent.fileNotFoundEvt p]
  | TermKind.errored => [ManagerEvent.errorEvt p]
  | TermKind.raised => [ManagerEvent.errorEvt p]
  | TermKind.completedEarly => [ManagerEvent.completedEvt p]
  | TermKind.completedFull => [ManagerEvent.completedEvt p]

/-- The atomic state effect of a worker run terminating: the terminal
branch of `_processFile` (or the `.catch` handler for a raised error),
followed by the `.finally` continuation `activeWorkers--; _processNext()`
installed by `_processNext` and `_forceProcessFile`. -/
def settle (p : String) (t : TermKind) (h : String) (s : ManagerState) : ManagerState :=
  let s1 :=
    match t with
    | TermKind.completedEarly =>
        { s with processing := mapDelete s.processing p
                 completed := mapSet s.completed p ⟨h⟩ }
    | TermKind.completedFull =>
        { s with processing := mapDelete s.processing p
                 completed := mapSet s.completed p ⟨h⟩ }
    | TermKind.errored =>
        { s with processing := mapSet s.processing p PreprocessingStatus.error }
    | TermKind.notFound =>
        { s with processing := mapSet s.processing p PreprocessingStatus.fileNotFound }
    | TermKind.raised =>
        { s with processing := mapSet s.processing p PreprocessingStatus.error }
  processNext { s1 with activeWorkers := s1.activeWorkers - 1 }

/-- The `handleCacheCleared` subscriber (frontend file-queue module):
forwards a non-empty hash list of a `cache-cleared` event to
`APIClient.batchDeleteCache`. -/
structure BatchDeleteRequest where
  file_hashes : List String
deriving DecidableEq, Repr

/-- Source `APIClient.batchDeleteCache`: the request body posted to
`/api/v1/preprocessing/cache/batch-delete`. -/
def batchDeleteCache (hashes : List String) : BatchDeleteRequest :=
  ⟨hashes⟩

/-- Subscriber `handleCacheCleared` for the cache-cleared event: issues the batch-delete call
exactly when the hash list is non-empty. -/
def handleCacheCleared (hashes : List String) : Option BatchDeleteRequest :=
  if 0 < hashes.length then some (batchDeleteCache hashes) else none

/-! ### Association-list lemmas -/

theorem mapGet_nil (k : String) : mapGet ([] : List (String × α)) k = none := rfl

theorem mapGet_cons (e : String × α) (m : List (String × α)) (k : String) :
    mapGet (e :: m) k = if e.1 == k then some e.2 else mapGet m k := rfl

theorem mapDelete_cons (e : String × α) (m : List (String × α)) (k : String) :
    mapDelete (e :: m) k =
      if e.1 != k then e :: mapDelete m k else mapDelete m k := by
  simp [mapDelete, List.filter_cons]

theorem mapGet_set_self (m : List (String × α)) (k : String) (v : α) :
    mapGet (mapSet m k v) k = some v := by
  induction m with
  | nil => simp [mapSet, mapGet]
  | cons e m ih =>
    by_cases h : e.1 == k
    · simp [mapSet, h, mapGet]
    · simp [mapSet, h, mapGet_cons, ih]

theorem mapGet_set_ne (m : List (String × α)) (k k' : String) (v : α)
    (h : k' ≠ k) : mapGet (mapSet m k v) k' = mapGet m k' := by
  have hkk : ¬((k : String) == k') = true := by
    simp only [beq_iff_eq]
    exact fun hx => h hx.symm
  induction m with
  | nil =>
    simp only [mapSet, mapGet_cons, mapGet_nil]
    rw [if_neg hkk]
  | cons e m ih =>
    by_cases he : e.1 == k
    · have he1 : e.1 = k := by simpa using he
      have h3 : ¬(e.1 == k') = true := by rw [he1]; exact hkk
      simp only [mapSet, he, if_true, mapGet_cons]
      rw [if_neg hkk, if_neg h3]
    · simp only [mapSet, he, if_false, Bool.false_eq_true, mapGet_cons]
      by_cases hek : e.1 == k'
      · rw [if_pos hek, if_pos hek]
      · rw [if_neg hek, if_neg hek]; exact ih

theorem mapHas_set_self (m : List (String × α)) (k : String) (v : α) :
    mapHas (mapSet m k v) k = true := by
  simp [mapHas, mapGet_set_self]

theorem mapHas_set_mono (m : List (String × α)) (k k' : String) (v : α)
    (h : mapHas m k' = true) : mapHas (mapSet m k v) k' = true := by
  by_cases hk : k' = k
  · subst hk; exact mapHas_set_self m k' v
  · simpa [mapHas, mapGet_set_ne m k k' v hk] using h

theorem mapGet_delete_self (m : List (String × α)) (k : String) :
    mapGet (mapDelete m k) k = none := by
  induction m with
  | nil => simp [mapDelete, mapGet]
  | cons e m ih =>
    by_cases h1 : e.1 = k
    · have hb : (e.1 != k) = false := by simp [h1]
      rw [mapDelete_cons, hb]
      simpa using ih
    · have hb : (e.1 != k) = true := by simp [h1]
      have hb2 : ¬(e.1 == k) = true := by simpa using h1
      rw [mapDelete_cons, hb]
      simp only [if_true, mapGet_cons]
      rw [if_neg hb2]
      exact ih

theorem mapGet_delete_ne (m : List (String × α)) (k k' : String)
    (h : k' ≠ k) : mapGet (mapDelete m k) k' = mapGet m k' := by
  induction m with
  | nil => simp [mapDelete, mapGet]
  | cons e m ih =>
    by_cases h1 : e.1 = k
    · have hb : (e.1 != k) = false := by simp [h1]
      have h2 : ¬(e.1 == k') = true := by
        simp only [beq_iff_eq]
        intro hx
        exact h (by rw [← hx, h1])
      rw [mapDelete_cons, hb]
      simp only [Bool.false_eq_true, if_false, mapGet_cons]
      rw [if_neg h2]
      exact ih
    · have hb : (e.1 != k) = true := by simp [h1]
      rw [mapDelete_cons, hb]
      simp only [if_true, mapGet_cons]
      by_cases hek : e.1 == k'
      · rw [if_pos hek, if_pos hek]
      · rw [if_neg hek, if_neg hek]; exact ih

theorem mapGet_foldDelete_none (l : List String) (m : List (String × α)) (k : String)
    (h : mapGet m k = none) :
    mapGet (l.foldl (fun c p => mapDelete c p) m) k = none := by
  induction l generalizing m with
  | nil => exact h
  | cons x l ih =>
    simp only [List.foldl_cons]
    apply ih
    by_cases hx : k = x
    · subst hx; exact mapGet_delete_self m k
    · rw [mapGet_delete_ne m x k hx]; exact h

theorem mapGet_foldDelete_of_mem (l : List String) (m : List (String × α)) (k : String)
    (h : k ∈ l) : mapGet (l.foldl (fun c p => mapDelete c p) m) k = none := by
  induction l generalizing m with
  | nil => cases h
  | cons x l ih =>
    simp only [List.foldl_cons]
    rcases List.mem_cons.mp h with h1 | h1
    · subst h1
      exact mapGet_foldDelete_none l (mapDelete m k) k (mapGet_delete_self m k)
    · exact ih (mapDelete m x) h1

theorem mapGet_foldDelete_of_not_mem (l : List String) (m : List (String × α)) (k : String)
    (h : k ∉ l) : mapGet (l.foldl (fun c p => mapDelete c p) m) k = mapGet m k := by
  induction l generalizing m with
  | nil => rfl
  | cons x l ih =>
    have hx : k ≠ x := fun hk => h (by rw [hk]; exact List.mem_cons_self x l)
    have hl : k ∉ l := fun hmem => h (List.mem_cons_of_mem x hmem)
    simp only [List.foldl_cons]
    rw [ih (mapDelete m x) hl, mapGet_delete_ne m x k hx]

theorem mapHas_iff_mem_keys (m : List (String × α)) (k : String) :
    mapHas m k = true ↔ k ∈ m.map Prod.fst := by
  induction m with
  | nil => simp [mapHas, mapGet]
  | cons e m ih =>
    by_cases h1 : e.1 = k
    · have h : (e.1 == k) = true := by simpa using h1
      simp [mapHas, mapGet_cons, h, h1]
    · have h : ¬(e.1 == k) = true := by simpa using h1
      simp only [mapHas, mapGet_cons, List.map_cons, List.mem_cons]
      rw [if_neg h]
      constructor
      · intro hh; exact Or.inr (ih.mp hh)
      · intro hh
        rcases hh with hh | hh
        · exact absurd hh.symm h1
        · exact ih.mpr hh

/-! ### Dispatcher and `_processNext` lemmas -/

theorem dispatch_config (n : Nat) (s : ManagerState) :
    (dispatch n s).completed = s.completed ∧
    (dispatch n s).doneItems = s.doneItems ∧
    (dispatch n s).doneCount = s.doneCount ∧
    (dispatch n s).isPaused = s.isPaused ∧
    (dispatch n s).maxWorkers = s.maxWorkers ∧
    (dispatch n s).rollingWindow = s.rollingWindow ∧
    (dispatch n s).enabled = s.enabled ∧
    (dispatch n s).steps = s.steps := by
  induction n generalizing s with
  | zero => exact ⟨rfl, rfl, rfl, rfl, rfl, rfl, rfl, rfl⟩
  | succ n ih =>
    rw [dispatch]
    split
    · split
      · exact ⟨rfl, rfl, rfl, rfl, rfl, rfl, rfl, rfl⟩
      · split
        · exact ⟨rfl, rfl, rfl, rfl, rfl, rfl, rfl, rfl⟩
        · exact ih _
    · exact ⟨rfl, rfl, rfl, rfl, rfl, rfl, rfl, rfl⟩

theorem getReadyCount_mk (s t : ManagerState)
    (h1 : t.completed = s.completed) (h2 : t.doneItems = s.doneItems) :
    getReadyCount t = getReadyCount s := by
  unfold getReadyCount
  rw [h1, h2]

theorem dispatch_activeWorkers_le (n : Nat) (s : ManagerState)
    (h : s.activeWorkers ≤ s.maxWorkers) :
    (dispatch n s).activeWorkers ≤ s.maxWorkers := by
  induction n generalizing s with
  | zero => exact h
  | succ n ih =>
    rw [dispatch]
    split
    · split
      · exact h
      · split
        · exact h
        · exact ih _ (by show s.activeWorkers + 1 ≤ s.maxWorkers; omega)
    · exact h

theorem pauseProcessing_fields (s : ManagerState) :
    (pauseProcessing s).completed = s.completed ∧
    (pauseProcessing s).doneItems = s.doneItems ∧
    (pauseProcessing s).doneCount = s.doneCount ∧
    (pauseProcessing s).maxWorkers = s.maxWorkers ∧
    (pauseProcessing s).rollingWindow = s.rollingWindow ∧
    (pauseProcessing s).enabled = s.enabled ∧
    (pauseProcessing s).queue = s.queue ∧
    (pauseProcessing s).processing = s.processing ∧
    (pauseProcessing s).activeWorkers = s.activeWorkers := by
  unfold pauseProcessing
  by_cases h : s.isPaused
  · rw [if_pos h]; exact ⟨rfl, rfl, rfl, rfl, rfl, rfl, rfl, rfl, rfl⟩
  · rw [if_neg h]; exact ⟨rfl, rfl, rfl, rfl, rfl, rfl, rfl, rfl, rfl⟩

theorem processNext_config (s : ManagerState) :
    (processNext s).completed = s.completed ∧
    (processNext s).doneItems = s.doneItems ∧
    (processNext s).doneCount = s.doneCount ∧
    (processNext s).maxWorkers = s.maxWorkers ∧
    (processNext s).rollingWindow = s.rollingWindow ∧
    (processNext s).enabled = s.enabled := by
  unfold processNext
  by_cases h1 : (shouldPause s && !s.isPaused) = true
  · rw [if_pos h1]
    obtain ⟨a, b, c, d, e, f, _⟩ := pauseProcessing_fields s
    exact ⟨a, b, c, d, e, f⟩
  · rw [if_neg h1]
    by_cases h2 : s.isPaused = true
    · rw [if_pos h2]; exact ⟨rfl, rfl, rfl, rfl, rfl, rfl⟩
    · rw [if_neg h2]
      by_cases h3 : s.rollingWindow.maxReadyItems ≤ getReadyCount s
      · rw [if_pos h3]; exact ⟨rfl, rfl, rfl, rfl, rfl, rfl⟩
      · rw [if_neg h3]
        obtain ⟨a, b, c, _, d, e, f, _⟩ := dispatch_config s.queue.length s
        exact ⟨a, b, c, d, e, f⟩

theorem processNext_getReadyCount (s : ManagerState) :
    getReadyCount (processNext s) = getReadyCount s := by
  obtain ⟨a, b, _⟩ := processNext_config s
  exact getReadyCount_mk s (processNext s) a b

theorem processNext_activeWorkers_le (s : ManagerState)
    (h : s.activeWorkers ≤ s.maxWorkers) :
    (processNext s).activeWorkers ≤ (processNext s).maxWorkers := by
  have hmw : (processNext s).maxWorkers = s.maxWorkers := (processNext_config s).2.2.2.1
  rw [hmw]
  unfold processNext
  by_cases h1 : (shouldPause s && !s.isPaused) = true
  · rw [if_pos h1]
    rw [(pauseProcessing_fields s).2.2.2.2.2.2.2.2]
    exact h
  · rw [if_neg h1]
    by_cases h2 : s.isPaused = true
    · rw [if_pos h2]; exact h
    · rw [if_neg h2]
      by_cases h3 : s.rollingWindow.maxReadyItems ≤ getReadyCount s
      · rw [if_pos h3]; exact h
      · rw [if_neg h3]; exact dispatch_activeWorkers_le s.queue.length s h

theorem dispatch_processing_has (n : Nat) (s : ManagerState) (p : String)
    (h : mapHas s.processing p = true) :
    mapHas (dispatch n s).processing p = true := by
  induction n generalizing s with
  | zero => exact h
  | succ n ih =>
    rw [dispatch]
    split
    · split
      · exact h
      · split
        · exact h
        · next q rest _ _ =>
            exact ih _ (mapHas_set_mono s.processing q p PreprocessingStatus.hashing h)
    · exact h

theorem dispatch_tracked (n : Nat) (s : ManagerState) (p : String)
    (hne : p ≠ "") (h : p ∈ s.queue ∨ mapHas s.processing p = true) :
    p ∈ (dispatch n s).queue ∨ mapHas (dispatch n s).processing p = true := by
  induction n generalizing s with
  | zero => exact h
  | succ n ih =>
    rw [dispatch]
    split
    · split
      · next hq =>
          rcases h with h | h
          · rw [hq] at h; cases h
          · exact Or.inr h
      · split
        · next q rest hq hp =>
            rcases h with h | h
            · rw [hq] at h
              rcases List.mem_cons.mp h with h1 | h1
              · exfalso; exact hne (by rw [h1]; simpa using hp)
              · exact Or.inl h1
            · exact Or.inr h
        · next q rest hq hp =>
            apply ih
            rcases h with h | h
            · rw [hq] at h
              rcases List.mem_cons.mp h with h1 | h1
              · subst h1
                exact Or.inr (mapHas_set_self s.processing p PreprocessingStatus.hashing)
              · exact Or.inl h1
            · exact Or.inr (mapHas_set_mono s.processing q p PreprocessingStatus.hashing h)
    · exact h

theorem contains_iff (l : List String) (p : String) :
    l.contains p = true ↔ p ∈ l := by
  induction l with
  | nil => simp
  | cons x l ih => simp

theorem dispatch_not_queue (n : Nat) (s : ManagerState) (p : String)
    (h : p ∉ s.queue) :
    mapGet (dispatch n s).processing p = mapGet s.processing p ∧
    p ∉ (dispatch n s).queue := by
  induction n generalizing s with
  | zero => exact ⟨rfl, h⟩
  | succ n ih =>
    rw [dispatch]
    split
    · split
      · exact ⟨rfl, h⟩
      · split
        · next q rest hq hp =>
            refine ⟨rfl, ?_⟩
            rw [hq] at h
            exact fun hmem => h (List.mem_cons_of_mem q hmem)
        · next q rest hq hp =>
            rw [hq] at h
            have hp2 : p ∉ rest := fun hmem => h (List.mem_cons_of_mem q hmem)
            have hqp : p ≠ q := fun hk => h (by rw [hk]; exact List.mem_cons_self q rest)
            obtain ⟨h1, h2⟩ :=
              ih { s with queue := rest
                          activeWorkers := s.activeWorkers + 1
                          processing := mapSet s.processing q PreprocessingStatus.hashing } hp2
            refine ⟨?_, h2⟩
            rw [h1]
            exact mapGet_set_ne s.processing q p PreprocessingStatus.hashing hqp
    · exact ⟨rfl, h⟩

theorem processNext_not_queue (s : ManagerState) (p : String)
    (h : p ∉ s.queue) :
    mapGet (processNext s).processing p = mapGet s.processing p ∧
    p ∉ (processNext s).queue := by
  unfold processNext
  by_cases h1 : (shouldPause s && !s.isPaused) = true
  · rw [if_pos h1]
    obtain ⟨_, _, _, _, _, _, hq, hpr, _⟩ := pauseProcessing_fields s
    rw [hq, hpr]
    exact ⟨rfl, h⟩
  · rw [if_neg h1]
    by_cases h2 : s.isPaused = true
    · rw [if_pos h2]; exact ⟨rfl, h⟩
    · rw [if_neg h2]
      by_cases h3 : s.rollingWindow.maxReadyItems ≤ getReadyCount s
      · rw [if_pos h3]; exact ⟨rfl, h⟩
      · rw [if_neg h3]; exact dispatch_not_queue s.queue.length s p h

theorem processNext_tracked (s : ManagerState) (p : String)
    (hne : p ≠ "") (h : p ∈ s.queue ∨ mapHas s.processing p = true) :
    p ∈ (processNext s).queue ∨ mapHas (processNext s).processing p = true := by
  unfold processNext
  by_cases h1 : (shouldPause s && !s.isPaused) = true
  · rw [if_pos h1]
    obtain ⟨_, _, _, _, _, _, hq, hpr, _⟩ := pauseProcessing_fields s
    rw [hq, hpr]
    exact h
  · rw [if_neg h1]
    by_cases h2 : s.isPaused = true
    · rw [if_pos h2]; exact h
    · rw [if_neg h2]
      by_cases h3 : s.rollingWindow.maxReadyItems ≤ getReadyCount s
      · rw [if_pos h3]; exact h
      · rw [if_neg h3]; exact dispatch_tracked s.queue.length s p hne h

theorem processNext_at_cap_cases (s : ManagerState)
    (h : s.rollingWindow.maxReadyItems ≤ getReadyCount s) :
    processNext s = pauseProcessing s ∨ processNext s = s := by
  unfold processNext
  by_cases h1 : (shouldPause s && !s.isPaused) = true
  · rw [if_pos h1]; exact Or.inl rfl
  · rw [if_neg h1]
    by_cases h2 : s.isPaused = true
    · rw [if_pos h2]; exact Or.inr rfl
    · rw [if_neg h2]
      rw [if_pos h]
      exact Or.inr rfl

theorem clearDoneItems_fields (s : ManagerState) :
    (clearDoneItems s).1.queue = s.queue ∧
    (clearDoneItems s).1.processing = s.processing ∧
    (clearDoneItems s).1.activeWorkers = s.activeWorkers ∧
    (clearDoneItems s).1.maxWorkers = s.maxWorkers ∧
    (clearDoneItems s).1.isPaused = s.isPaused ∧
    (clearDoneItems s).1.rollingWindow = s.rollingWindow ∧
    (clearDoneItems s).1.enabled = s.enabled := by
  exact ⟨rfl, rfl, rfl, rfl, rfl, rfl, rfl⟩

/-! ### Claim theorems -/

/-- Claim C1: whenever `_processNext` runs with
`getReadyCount() ≥ rollingWindow.maxReadyItems`, no queued file is moved
into `processing`, `activeWorkers` is unchanged, and the ready count is
unchanged, so `ready_count` never exceeds `max_ready_items` as a result
of a dispatch decision. -/
theorem claimC1_no_dispatch_at_cap (s : ManagerState)
    (h : s.rollingWindow.maxReadyItems ≤ getReadyCount s) :
    (processNext s).queue = s.queue ∧
    (processNext s).processing = s.processing ∧
    (processNext s).activeWorkers = s.activeWorkers ∧
    getReadyCount (processNext s) = getReadyCount s := by
  rcases processNext_at_cap_cases s h with hc | hc
  · rw [hc]
    obtain ⟨_, _, _, _, _, _, hq, hpr, haw⟩ := pauseProcessing_fields s
    refine ⟨hq, hpr, haw, ?_⟩
    rw [← hc]
    exact processNext_getReadyCount s
  · rw [hc]
    exact ⟨rfl, rfl, rfl, rfl⟩

/-- A concrete state at the ready cap, witnessing claim C1. -/
def c1state : ManagerState :=
  { maxWorkers := 2
    enabled := true
    steps := ⟨true, true, true⟩
    rollingWindow := ⟨1, 1, 1⟩
    queue := ["b"]
    processing := []
    completed := [("a", ⟨"h1"⟩)]
    activeWorkers := 0
    isPaused := false
    doneItems := []
    doneCount := 0 }

/-- Witness for claim C1 at a concrete state whose ready count has
reached `maxReadyItems`. -/
theorem claimC1_witness :
    c1state.rollingWindow.maxReadyItems ≤ getReadyCount c1state ∧
    ((processNext c1state).queue = c1state.queue ∧
     (processNext c1state).processing = c1state.processing ∧
     (processNext c1state).activeWorkers = c1state.activeWorkers ∧
     getReadyCount (processNext c1state) = getReadyCount c1state) :=
  ⟨by decide, claimC1_no_dispatch_at_cap c1state (by decide)⟩

/-- Claim C2 (as amended): `activeWorkers ≤ maxWorkers` is preserved by
every public operation — `addToQueue` (except a force-flagged submission
arriving while paused), `markDone`, `removeFile`, `clearCompleted`,
`stop` and a worker settling — and a force-flagged submission while
paused increases `activeWorkers` by at most one (unconditionally, with
no bound check). -/
theorem claimC2_worker_bound :
    (∀ (s : ManagerState) (p : String) (o : QueueOptions),
       s.activeWorkers ≤ s.maxWorkers →
       ¬(o.force = true ∧ s.isPaused = true) →
       (addToQueue p o s).activeWorkers ≤ (addToQueue p o s).maxWorkers) ∧
    (∀ (s : ManagerState) (p : String),
       s.activeWorkers ≤ s.maxWorkers →
       (markDone p s).1.activeWorkers ≤ (markDone p s).1.maxWorkers) ∧
    (∀ (s : ManagerState) (p : String) (t : TermKind) (h : String),
       s.activeWorkers ≤ s.maxWorkers →
       (settle p t h s).activeWorkers ≤ (settle p t h s).maxWorkers) ∧
    (∀ (s : ManagerState) (p : String),
       s.activeWorkers ≤ s.maxWorkers →
       (removeFile p s).1.activeWorkers ≤ (removeFile p s).1.maxWorkers) ∧
    (∀ s : ManagerState,
       s.activeWorkers ≤ s.maxWorkers →
       (clearCompleted s).activeWorkers ≤ (clearCompleted s).maxWorkers) ∧
    (∀ s : ManagerState,
       s.activeWorkers ≤ s.maxWorkers →
       (stop s).activeWorkers ≤ (stop s).maxWorkers) ∧
    (∀ (s : ManagerState) (p : String),
       (forceProcessFile p s).activeWorkers ≤ s.activeWorkers + 1) := by
  refine ⟨?_, ?_, ?_, ?_, ?_, ?_, ?_⟩
  · intro s p o hb hnf
    unfold addToQueue
    by_cases h1 : (!s.enabled) = true
    · rw [if_pos h1]; exact hb
    · rw [if_neg h1]
      by_cases h2 : (s.queue.contains p || mapHas s.processing p || mapHas s.completed p) = true
      · rw [if_pos h2]; exact hb
      · rw [if_neg h2]
        have hforce : ¬(o.force &&
            (ManagerState.isPaused
              { s with queue := if o.priority then p :: s.queue else s.queue ++ [p] })) = true := by
          intro hx
          exact hnf (by simpa using hx)
        rw [if_neg hforce]
        exact processNext_activeWorkers_le _ hb
  · intro s p hb
    unfold markDone
    by_cases h1 : (!(mapHas s.completed p)) = true
    · rw [if_pos h1]; exact hb
    · rw [if_neg h1]
      by_cases h2 : shouldResume
          { s with doneItems := setAdd s.doneItems p, doneCount := s.doneCount + 1 } = true
      · rw [if_pos h2]
        unfold resumeProcessing
        by_cases h3 : (!ManagerState.isPaused
            { s with doneItems := setAdd s.doneItems p, doneCount := s.doneCount + 1 }) = true
        · rw [if_pos h3]; exact hb
        · rw [if_neg h3]
          exact processNext_activeWorkers_le _ hb
      · rw [if_neg h2]; exact hb
  · intro s p t h hb
    unfold settle
    match t with
    | TermKind.completedEarly =>
        exact processNext_activeWorkers_le _ (Nat.le_trans (Nat.sub_le _ _) hb)
    | TermKind.completedFull =>
        exact processNext_activeWorkers_le _ (Nat.le_trans (Nat.sub_le _ _) hb)
    | TermKind.errored =>
        exact processNext_activeWorkers_le _ (Nat.le_trans (Nat.sub_le _ _) hb)
    | TermKind.notFound =>
        exact processNext_activeWorkers_le _ (Nat.le_trans (Nat.sub_le _ _) hb)
    | TermKind.raised =>
        exact processNext_activeWorkers_le _ (Nat.le_trans (Nat.sub_le _ _) hb)
  · intro s p hb
    exact hb
  · intro s hb
    exact hb
  · intro s hb
    exact hb
  · intro s p
    unfold forceProcessFile
    by_cases h1 : s.queue.contains p = true
    · rw [if_pos h1]
    · rw [if_neg h1]; exact Nat.le_succ _

/-- Empty submit options (`addToQueue(path)`). -/
def plainOpt : QueueOptions := {}

/-- Force submit options (`addToQueue(path, { force: true })`). -/
def forceOpt : QueueOptions := { force := true }

/-- A manager configured with one worker and rolling window
`{maxReadyItems: 1, minQueueBuffer: 1, resumeThreshold: 1}`. -/
def c2s0 : ManagerState :=
  mkManager
    { maxWorkers := some 1
      rollingWindow := some
        { maxReadyItems := some 1, minQueueBuffer := some 1, resumeThreshold := some 1 } }

/-- After `addToQueue("a")`: worker dispatched for `a`. -/
def c2s1 : ManagerState := addToQueue "a" plainOpt c2s0

/-- After `addToQueue("b")`: `b` queued, the single worker busy. -/
def c2s2 : ManagerState := addToQueue "b" plainOpt c2s1

/-- Worker for `a` completes; the manager pauses
(ready count 1 ≥ minQueueBuffer 1 with `b` still queued). -/
def c2s3 : ManagerState := settle "a" TermKind.completedFull "ha" c2s2

/-- Step: force-submit `c` while paused: starts a worker
unconditionally (activeWorkers 1 = maxWorkers). -/
def c2s4 : ManagerState := addToQueue "c" forceOpt c2s3

/-- Counterexample to claim C2 as stated: after a reachable sequence of
`addToQueue` / completion events, a second force-flagged submission
while paused drives `activeWorkers` to 2 with `maxWorkers = 1`, so
`activeWorkers ≤ maxWorkers` does not hold after every public
operation. -/
theorem claimC2_counterexample :
    c2s3.isPaused = true ∧
    c2s4.activeWorkers = c2s4.maxWorkers ∧
    (addToQueue "d" forceOpt c2s4).activeWorkers = 2 ∧
    (addToQueue "d" forceOpt c2s4).maxWorkers = 1 ∧
    ¬((addToQueue "d" forceOpt c2s4).activeWorkers ≤
        (addToQueue "d" forceOpt c2s4).maxWorkers) := by
  refine ⟨by decide, by decide, by decide, by decide, by decide⟩

/-- Witness for claim C2's amended bound at a concrete non-force
submission. -/
theorem claimC2_witness :
    (addToQueue "x" plainOpt c2s0).activeWorkers ≤
      (addToQueue "x" plainOpt c2s0).maxWorkers :=
  claimC2_worker_bound.1 c2s0 "x" plainOpt (by decide) (by decide)

/-- Claim C3 (as amended): on a `markDone(p)` call, the resume transition
fires iff `p` has a completed entry, the manager is paused, and the
cumulative `doneCount` counter after the increment reaches
`resumeThreshold`.  `doneCount` is never reset when a pause occurs, so
consumptions before the pause do count toward the threshold (contrary to
the claim as stated); when no resume fires the pause flag is unchanged. -/
theorem claimC3_resume_condition (s : ManagerState) (p : String) :
    ((markDone p s).2.1 = true ↔
      (mapHas s.completed p = true ∧ s.isPaused = true ∧
       s.rollingWindow.resumeThreshold ≤ s.doneCount + 1)) ∧
    ((markDone p s).2.1 = false → (markDone p s).1.isPaused = s.isPaused) := by
  unfold markDone
  by_cases h1 : mapHas s.completed p = true
  · have h1b : ¬(!(mapHas s.completed p)) = true := by simp [h1]
    rw [if_neg h1b]
    by_cases h2 : shouldResume
        { s with doneItems := setAdd s.doneItems p, doneCount := s.doneCount + 1 } = true
    · rw [if_pos h2]
      have h2e : s.isPaused = true ∧ s.rollingWindow.resumeThreshold ≤ s.doneCount + 1 := by
        simpa [shouldResume] using h2
      exact ⟨⟨fun _ => ⟨h1, h2e.1, h2e.2⟩, fun _ => rfl⟩, fun hx => by simp at hx⟩
    · rw [if_neg h2]
      have h2e : ¬(s.isPaused = true ∧ s.rollingWindow.resumeThreshold ≤ s.doneCount + 1) := by
        intro hx
        exact h2 (by simp [shouldResume, hx.1, hx.2])
      constructor
      · constructor
        · intro hx; simp at hx
        · intro hx
          exact absurd ⟨hx.2.1, hx.2.2⟩ h2e
      · intro _; rfl
  · have h1b : (!(mapHas s.completed p)) = true := by simp [h1]
    rw [if_pos h1b]
    constructor
    · constructor
      · intro hx; simp at hx
      · intro hx; exact absurd hx.1 h1
    · intro _; rfl

/-- A manager with one worker and rolling window
`{maxReadyItems: 3, minQueueBuffer: 3, resumeThreshold: 2}` (satisfying
the documented ordering). -/
def c3q0 : ManagerState :=
  mkManager
    { maxWorkers := some 1
      rollingWindow := some
        { maxReadyItems := some 3, minQueueBuffer := some 3, resumeThreshold := some 2 } }

/-- Seven submissions `a` … `g`; the single worker picks up `a`. -/
def c3q7 : ManagerState :=
  addToQueue "g" plainOpt (addToQueue "f" plainOpt (addToQueue "e" plainOpt
    (addToQueue "d" plainOpt (addToQueue "c" plainOpt (addToQueue "b" plainOpt
      (addToQueue "a" plainOpt c3q0))))))

/-- Files `a` and `b` complete, then are both consumed *before* any pause
(doneCount reaches 2 with the manager still running). -/
def c3r4 : ManagerState :=
  (markDone "b" (markDone "a" (settle "b" TermKind.completedFull "hb"
    (settle "a" TermKind.completedFull "ha" c3q7))).1).1

/-- Files `c` and `d` complete (no pause yet: ready count below the buffer). -/
def c3r6 : ManagerState :=
  settle "d" TermKind.completedFull "hd" (settle "c" TermKind.completedFull "hc" c3r4)

/-- File `e` completes: ready count reaches `minQueueBuffer` 3 with `f`, `g`
still queued, so this settle performs the pause transition. -/
def c3pause : ManagerState := settle "e" TermKind.completedFull "he" c3r6

/-- Counterexample to claim C3 as stated: the pause transition happens at
the settle step from `c3r6` to `c3pause` (no `markDone` occurs after it),
with `resumeThreshold = 2` and the cumulative `doneCount` already 2 from
the two pre-pause consumptions.  The very next `markDone` — a single
consumption since the pause, fewer than `resumeThreshold` — already
fires the resume transition, so consumptions before the pause do count. -/
theorem claimC3_counterexample :
    c3r6.isPaused = false ∧
    c3pause.isPaused = true ∧
    c3pause.rollingWindow.resumeThreshold = 2 ∧
    c3pause.doneCount = 2 ∧
    (markDone "c" c3pause).2.1 = true ∧
    (markDone "c" c3pause).1.isPaused = false := by
  refine ⟨by decide, by decide, by decide, by decide, by decide, by decide⟩

/-- Witness for the amended claim C3 at the concrete paused state. -/
theorem claimC3_witness : (markDone "c" c3pause).2.1 = true :=
  (claimC3_resume_condition c3pause "c").1.mpr ⟨by decide, by decide, by decide⟩

/-- The prefix of `doneItems` that `_clearDoneItems` purges:
the oldest `min doneCount resumeThreshold` consumed entries. -/
def purgedItems (s : ManagerState) : List String :=
  s.doneItems.take (min s.doneCount s.rollingWindow.resumeThreshold)

theorem resumeProcessing_of_paused (s : ManagerState) (hp : s.isPaused = true) :
    (resumeProcessing s).1 = processNext { (clearDoneItems s).1 with isPaused := false } ∧
    (resumeProcessing s).2 = (clearDoneItems s).2 := by
  unfold resumeProcessing
  rw [if_neg (by simp [hp])]
  exact ⟨rfl, rfl⟩

theorem forall2_filterMap_of_isSome (l : List String) (g : String → Option String)
    (h : ∀ q ∈ l, (g q).isSome = true) :
    List.Forall₂ (fun q hh => g q = some hh) l (l.filterMap g) := by
  induction l with
  | nil => exact List.Forall₂.nil
  | cons x l ih =>
    have hx := h x (List.mem_cons_self x l)
    obtain ⟨v, hv⟩ := Option.isSome_iff_exists.mp hx
    rw [List.filterMap_cons_some hv]
    exact List.Forall₂.cons hv (ih fun q hq => h q (List.mem_cons_of_mem _ hq))

/-- Claim C4: on every resume transition, at most `resume_threshold`
consumed entries are purged; they are the oldest consumed entries in the
order they were first marked done (a prefix of `doneItems`); each purged
entry is removed from both the completed map and the consumed set; and
the hashes of the purged entries are exactly the `cache-cleared` payload,
which `handleCacheCleared` forwards to `batchDeleteCache` whenever it is
non-empty. -/
theorem claimC4_resume_purge (s : ManagerState)
    (hp : s.isPaused = true)
    (hnd : s.doneItems.Nodup)
    (hsub : ∀ q ∈ s.doneItems, mapHas s.completed q = true) :
    (purgedItems s).length ≤ s.rollingWindow.resumeThreshold ∧
    purgedItems s ++ (resumeProcessing s).1.doneItems = s.doneItems ∧
    (∀ q ∈ purgedItems s,
       mapGet (resumeProcessing s).1.completed q = none ∧
       q ∉ (resumeProcessing s).1.doneItems) ∧
    List.Forall₂ (fun q hh => (mapGet s.completed q).map CompletedEntry.hash = some hh)
      (purgedItems s) (resumeProcessing s).2 ∧
    ((resumeProcessing s).2 ≠ [] →
       handleCacheCleared (resumeProcessing s).2 =
         some (batchDeleteCache (resumeProcessing s).2)) := by
  obtain ⟨hr1, hr2⟩ := resumeProcessing_of_paused s hp
  have hdone : (resumeProcessing s).1.doneItems =
      s.doneItems.drop (min s.doneCount s.rollingWindow.resumeThreshold) := by
    rw [hr1, (processNext_config _).2.1]
    rfl
  have hcomp : (resumeProcessing s).1.completed =
      (purgedItems s).foldl (fun c p => mapDelete c p) s.completed := by
    rw [hr1, (processNext_config _).1]
    rfl
  have hhashes : (resumeProcessing s).2 =
      (purgedItems s).filterMap (fun p => (mapGet s.completed p).map CompletedEntry.hash) := by
    rw [hr2]
    rfl
  refine ⟨?_, ?_, ?_, ?_, ?_⟩
  · unfold purgedItems
    rw [List.length_take]
    omega
  · rw [hdone]
    exact List.take_append_drop _ s.doneItems
  · intro q hq
    constructor
    · rw [hcomp]
      exact mapGet_foldDelete_of_mem _ s.completed q hq
    · rw [hdone]
      exact List.disjoint_take_drop hnd (Nat.le_refl _) hq
  · rw [hhashes]
    apply forall2_filterMap_of_isSome
    intro q hq
    have hmem : q ∈ s.doneItems := List.mem_of_mem_take hq
    have := hsub q hmem
    unfold mapHas at this
    rcases hg : mapGet s.completed q with _ | v
    · rw [hg] at this; simp at this
    · simp
  · intro hne
    unfold handleCacheCleared
    rw [if_pos (List.length_pos.mpr hne)]

/-- A concrete paused state with three consumed entries, witnessing
claim C4's purge behaviour. -/
def c4state : ManagerState :=
  { maxWorkers := 2
    enabled := true
    steps := ⟨true, true, true⟩
    rollingWindow := ⟨3, 3, 2⟩
    queue := ["f"]
    processing := []
    completed := [("a", ⟨"ha"⟩), ("b", ⟨"hb"⟩), ("c", ⟨"hc"⟩), ("d", ⟨"hd"⟩)]
    activeWorkers := 0
    isPaused := true
    doneItems := ["a", "b", "c"]
    doneCount := 3 }

/-- The short-circuit condition as the specification words it (refinement
comparison definition, written from the spec, not from the code): every
stage still configured for this file type is already cached — the
RAW-decode stage only counts for RAW files and only when enabled, and a
disabled stage never counts. -/
def specRemainingStagesCached (steps : Steps) (p : String) (cc : CacheCheck) : Bool :=
  (!(steps.nefConversion && isRawFile p) || cc.has_nef_conversion) &&
  (!steps.faceDetection || cc.has_face_detection) &&
  (!steps.thumbnails || cc.has_thumbnails)

/-- Closed form of `processFile` after a successful hash, used to reason
about the cache probe and the stage outcomes. -/
theorem processFile_ok_eq (steps : Steps) (p : String) (h : String)
    (cc : CacheCheck) (nr fr tr : StageOutcome) :
    processFile steps p ⟨HashOutcome.ok h, cc, nr, fr, tr⟩ =
      (if cc.has_nef_conversion && cc.has_face_detection && cc.has_thumbnails then
        ⟨[], TermKind.completedEarly⟩
      else
        ⟨(if steps.nefConversion && isRawFile p && !cc.has_nef_conversion then
            [StageCall.nefCall] else []) ++
         (if steps.faceDetection && !cc.has_face_detection then
            [StageCall.facesCall] else []) ++
         (if steps.thumbnails && !cc.has_thumbnails then
            [StageCall.thumbsCall] else []),
         if ((steps.faceDetection && !cc.has_face_detection) && stageFail fr) ||
            ((steps.thumbnails && !cc.has_thumbnails) && stageFail tr) then
           TermKind.errored
         else TermKind.completedFull⟩) := rfl

/-- Claim C5 (as amended): after a successful hash, the early cache-probe
short-circuit fires iff *all three* cache flags are set — regardless of
file type or disabled steps (contrary to the claim as stated).  However,
when every stage still configured for this file type is cached in the
spec's sense, the worker indeed performs no further stage calls and the
task still terminates completed (through the full path). -/
theorem claimC5_cache_shortcircuit (steps : Steps) (p : String) (env : PipelineEnv)
    (h : String) (hh : env.hashResult = HashOutcome.ok h) :
    ((processFile steps p env).term = TermKind.completedEarly ↔
      (env.cacheCheck.has_nef_conversion = true ∧
       env.cacheCheck.has_face_detection = true ∧
       env.cacheCheck.has_thumbnails = true)) ∧
    (specRemainingStagesCached steps p env.cacheCheck = true →
      (processFile steps p env).calls = [] ∧
      ((processFile steps p env).term = TermKind.completedEarly ∨
       (processFile steps p env).term = TermKind.completedFull)) := by
  rcases env with ⟨hr, cc, nr, fr, tr⟩
  simp only at hh
  subst hh
  rcases cc with ⟨cn, cf, ct⟩
  rcases steps with ⟨sn, sf, st⟩
  rw [processFile_ok_eq]
  dsimp only
  simp only [specRemainingStagesCached]
  generalize isRawFile p = braw
  generalize stageFail fr = bf
  generalize stageFail tr = bt
  revert sn sf st cn cf ct braw bf bt
  decide

/-- The pipeline environment of the C5 counterexample: a cache probe
showing face detection and thumbnails cached but no RAW conversion. -/
def c5env : PipelineEnv :=
  ⟨HashOutcome.ok "h", ⟨false, true, true⟩,
   StageOutcome.completed, StageOutcome.completed, StageOutcome.completed⟩

/-- Counterexample to claim C5 as stated: for the non-RAW file
`photo.jpg` with all steps enabled, every stage still configured for
this file type (face detection, thumbnails) is cached, yet the cache
probe does *not* short-circuit, because the code requires all three
flags including `has_nef_conversion`; the run completes through the full
path with no stage calls. -/
theorem claimC5_counterexample :
    isRawFile "photo.jpg" = false ∧
    specRemainingStagesCached ⟨true, true, true⟩ "photo.jpg" c5env.cacheCheck = true ∧
    (processFile ⟨true, true, true⟩ "photo.jpg" c5env).term ≠ TermKind.completedEarly ∧
    (processFile ⟨true, true, true⟩ "photo.jpg" c5env).term = TermKind.completedFull ∧
    (processFile ⟨true, true, true⟩ "photo.jpg" c5env).calls = [] := by
  refine ⟨by decide, by decide, by decide, by decide, by decide⟩

/-- Witness for the amended claim C5: a fully-cached probe does
short-circuit. -/
theorem claimC5_witness :
    (processFile ⟨true, true, true⟩ "img.nef"
        ⟨HashOutcome.ok "h", ⟨true, true, true⟩, StageOutcome.completed,
         StageOutcome.completed, StageOutcome.completed⟩).term =
      TermKind.completedEarly :=
  (claimC5_cache_shortcircuit ⟨true, true, true⟩ "img.nef"
      ⟨HashOutcome.ok "h", ⟨true, true, true⟩, StageOutcome.completed,
       StageOutcome.completed, StageOutcome.completed⟩ "h" rfl).1.mpr
    ⟨rfl, rfl, rfl⟩

/-- Claim C6: a RAW-decode (NEF) stage failure is non-terminal — with the
NEF outcome arbitrary (including a thrown error), the run still reaches
face detection and ends completed when face detection and thumbnails do
not fail — whereas a face-detection or thumbnail stage failure (thrown
error or `status:'error'`) makes the run terminate in the error state,
and an errored run never records the file in the completed map. -/
theorem claimC6_stage_failures :
    (∀ (steps : Steps) (p h : String) (cc : CacheCheck) (nr fr tr : StageOutcome),
       stageFail fr = false → stageFail tr = false →
       ((processFile steps p ⟨HashOutcome.ok h, cc, nr, fr, tr⟩).term =
          TermKind.completedEarly ∨
        (processFile steps p ⟨HashOutcome.ok h, cc, nr, fr, tr⟩).term =
          TermKind.completedFull)) ∧
    (∀ (steps : Steps) (p h : String) (cc : CacheCheck) (nr fr tr : StageOutcome),
       (cc.has_nef_conversion && cc.has_face_detection && cc.has_thumbnails) = false →
       steps.faceDetection = true → cc.has_face_detection = false →
       StageCall.facesCall ∈ (processFile steps p ⟨HashOutcome.ok h, cc, nr, fr, tr⟩).calls) ∧
    (∀ (steps : Steps) (p h : String) (cc : CacheCheck) (nr fr tr : StageOutcome),
       (cc.has_nef_conversion && cc.has_face_detection && cc.has_thumbnails) = false →
       steps.faceDetection = true → cc.has_face_detection = false → stageFail fr = true →
       (processFile steps p ⟨HashOutcome.ok h, cc, nr, fr, tr⟩).term = TermKind.errored) ∧
    (∀ (steps : Steps) (p h : String) (cc : CacheCheck) (nr fr tr : StageOutcome),
       (cc.has_nef_conversion && cc.has_face_detection && cc.has_thumbnails) = false →
       steps.thumbnails = true → cc.has_thumbnails = false → stageFail tr = true →
       (processFile steps p ⟨HashOutcome.ok h, cc, nr, fr, tr⟩).term = TermKind.errored) ∧
    (∀ (s : ManagerState) (p h : String),
       (settle p TermKind.errored h s).completed = s.completed) := by
  refine ⟨?_, ?_, ?_, ?_, ?_⟩
  · intro steps p h cc nr fr tr hf ht
    rcases cc with ⟨cn, cf, ct⟩
    rcases steps with ⟨sn, sf, st⟩
    rw [processFile_ok_eq]
    dsimp only
    generalize isRawFile p = braw
    rw [hf, ht]
    revert sn sf st cn cf ct braw
    decide
  · intro steps p h cc nr fr tr hac hsf hcf
    rcases cc with ⟨cn, cf, ct⟩
    rcases steps with ⟨sn, sf, st⟩
    simp only at hac hsf hcf
    subst hsf
    subst hcf
    rw [processFile_ok_eq]
    dsimp only
    generalize isRawFile p = braw
    generalize stageFail fr = bf
    generalize stageFail tr = bt
    revert sn st cn ct braw bf bt
    decide
  · intro steps p h cc nr fr tr hac hsf hcf hfail
    rcases cc with ⟨cn, cf, ct⟩
    rcases steps with ⟨sn, sf, st⟩
    simp only at hac hsf hcf
    subst hsf
    subst hcf
    rw [processFile_ok_eq]
    dsimp only
    generalize isRawFile p = braw
    rw [hfail]
    generalize stageFail tr = bt
    revert sn st cn ct braw bt
    decide
  · intro steps p h cc nr fr tr hac hst hct hfail
    rcases cc with ⟨cn, cf, ct⟩
    rcases steps with ⟨sn, sf, st⟩
    simp only at hac hst hct
    subst hst
    subst hct
    rw [processFile_ok_eq]
    dsimp only
    generalize isRawFile p = braw
    rw [hfail]
    generalize stageFail fr = bf
    revert sn sf cn cf braw bf
    decide
  · intro s p h
    exact (processNext_config _).1

/-- Witness for claim C6: a thrown NEF conversion with healthy later
stages still completes; a thrown face detection errors the run. -/
theorem claimC6_witness :
    ((processFile ⟨true, true, true⟩ "img.nef"
        ⟨HashOutcome.ok "h", ⟨false, false, false⟩, StageOutcome.thrown,
         StageOutcome.completed, StageOutcome.completed⟩).term =
       TermKind.completedEarly ∨
     (processFile ⟨true, true, true⟩ "img.nef"
        ⟨HashOutcome.ok "h", ⟨false, false, false⟩, StageOutcome.thrown,
         StageOutcome.completed, StageOutcome.completed⟩).term =
       TermKind.completedFull) ∧
    (processFile ⟨true, true, true⟩ "img.nef"
        ⟨HashOutcome.ok "h", ⟨false, false, false⟩, StageOutcome.thrown,
         StageOutcome.thrown, StageOutcome.completed⟩).term = TermKind.errored :=
  ⟨claimC6_stage_failures.1 ⟨true, true, true⟩ "img.nef" "h" ⟨false, false, false⟩
      StageOutcome.thrown StageOutcome.completed StageOutcome.completed rfl rfl,
   claimC6_stage_failures.2.2.1 ⟨true, true, true⟩ "img.nef" "h" ⟨false, false, false⟩
      StageOutcome.thrown StageOutcome.thrown StageOutcome.completed rfl rfl rfl rfl⟩

/-- Witness for claim C4 at the concrete paused state. -/
theorem claimC4_witness :
    c4state.isPaused = true ∧
    ((purgedItems c4state).length ≤ c4state.rollingWindow.resumeThreshold ∧
     purgedItems c4state ++ (resumeProcessing c4state).1.doneItems = c4state.doneItems ∧
     (∀ q ∈ purgedItems c4state,
        mapGet (resumeProcessing c4state).1.completed q = none ∧
        q ∉ (resumeProcessing c4state).1.doneItems) ∧
     List.Forall₂
       (fun q hh => (mapGet c4state.completed q).map CompletedEntry.hash = some hh)
       (purgedItems c4state) (resumeProcessing c4state).2 ∧
     ((resumeProcessing c4state).2 ≠ [] →
        handleCacheCleared (resumeProcessing c4state).2 =
          some (batchDeleteCache (resumeProcessing c4state).2))) :=
  ⟨by decide, claimC4_resume_purge c4state (by decide) (by decide) (by decide)⟩

/-- Claim C7 (as amended): neither the constructor nor `updateConfig`
validates the rolling-window ordering — a violating configuration is
installed verbatim rather than rejected; only the built-in defaults
`{15, 10, 5}` happen to satisfy the documented ordering. -/
theorem claimC7_config_unchecked (s : ManagerState) (u : RollingWindowOptions)
    (hbad : ¬ validRollingWindow (mergeRollingWindow s.rollingWindow u)) :
    (updateConfig { rollingWindow := some u } s).rollingWindow =
      mergeRollingWindow s.rollingWindow u ∧
    ¬ validRollingWindow ((updateConfig { rollingWindow := some u } s).rollingWindow) ∧
    (mkManager { rollingWindow := some u }).rollingWindow =
      mergeRollingWindow ⟨15, 10, 5⟩ u ∧
    validRollingWindow (mkManager {}).rollingWindow := by
  refine ⟨rfl, ?_, rfl, by decide⟩
  exact hbad

/-- A rolling-window update violating
`max_ready_items ≥ min_queue_buffer > resume_threshold ≥ 1`
(`maxReadyItems 1 < minQueueBuffer 10`). -/
def badWindowUpdate : RollingWindowOptions :=
  { maxReadyItems := some 1, minQueueBuffer := some 10, resumeThreshold := some 5 }

/-- Counterexample to claim C7 as stated: both `updateConfig` and the
constructor install the violating configuration `{1, 10, 5}` unchanged —
nothing is rejected and no validation exists at configuration time. -/
theorem claimC7_counterexample :
    (updateConfig { rollingWindow := some badWindowUpdate } (mkManager {})).rollingWindow =
      ⟨1, 10, 5⟩ ∧
    (mkManager { rollingWindow := some badWindowUpdate }).rollingWindow = ⟨1, 10, 5⟩ ∧
    ¬ validRollingWindow ⟨1, 10, 5⟩ := by
  refine ⟨by decide, by decide, by decide⟩

/-- Witness for the amended claim C7 at the concrete violating update. -/
theorem claimC7_witness :
    ¬ validRollingWindow
        ((updateConfig { rollingWindow := some badWindowUpdate }
            (mkManager {})).rollingWindow) :=
  (claimC7_config_unchecked (mkManager {}) badWindowUpdate (by decide)).2.1

theorem addToQueue_ignored (s : ManagerState) (p : String) (o : QueueOptions)
    (h : (s.queue.contains p || mapHas s.processing p || mapHas s.completed p) = true) :
    addToQueue p o s = s := by
  unfold addToQueue
  by_cases h1 : (!s.enabled) = true
  · rw [if_pos h1]
  · rw [if_neg h1, if_pos h]

/-- Claim C8: submitting a path that is already queued, in flight, or
terminally tracked leaves the state unchanged, and (for any non-empty
path — the empty string is falsy in JS and is silently discarded by the
dispatcher) a second submission of the same path is a no-op, so the
pipeline is admitted at most once per path between terminal-state
removals. -/
theorem claimC8_submit_dedup :
    (∀ (s : ManagerState) (p : String) (o : QueueOptions),
       (s.queue.contains p || mapHas s.processing p || mapHas s.completed p) = true →
       addToQueue p o s = s) ∧
    (∀ (s : ManagerState) (p : String) (o1 o2 : QueueOptions), p ≠ "" →
       addToQueue p o2 (addToQueue p o1 s) = addToQueue p o1 s) := by
  constructor
  · exact addToQueue_ignored
  · intro s p o1 o2 hne
    by_cases he : (!s.enabled) = true
    · have h1 : addToQueue p o1 s = s := by
        unfold addToQueue
        rw [if_pos he]
      rw [h1]
      unfold addToQueue
      rw [if_pos he]
    · by_cases hdup : (s.queue.contains p || mapHas s.processing p || mapHas s.completed p) = true
      · rw [addToQueue_ignored s p o1 hdup]
        exact addToQueue_ignored s p o2 hdup
      · have hstep : addToQueue p o1 s =
            (if o1.force &&
                (ManagerState.isPaused
                  { s with queue := if o1.priority then p :: s.queue else s.queue ++ [p] }) then
              forceProcessFile p
                { s with queue := if o1.priority then p :: s.queue else s.queue ++ [p] }
            else
              processNext
                { s with queue := if o1.priority then p :: s.queue else s.queue ++ [p] }) := by
          unfold addToQueue
          rw [if_neg he, if_neg hdup]
        have hmem : p ∈
            ({ s with queue := if o1.priority then p :: s.queue else s.queue ++ [p]} :
              ManagerState).queue := by
          by_cases hp : o1.priority = true
          · rw [hp]
            simp
          · have hp2 : o1.priority = false := by simpa using hp
            rw [hp2]
            simp
        rw [hstep]
        by_cases hf : (o1.force &&
            (ManagerState.isPaused
              { s with queue := if o1.priority then p :: s.queue else s.queue ++ [p] })) = true
        · rw [if_pos hf]
          have hc : ({ s with queue := if o1.priority then p :: s.queue else s.queue ++ [p]} :
              ManagerState).queue.contains p = true :=
            (contains_iff _ _).mpr hmem
          unfold forceProcessFile
          rw [if_pos hc]
          apply addToQueue_ignored
          simp [mapHas_set_self]
        · rw [if_neg hf]
          rcases processNext_tracked _ p hne (Or.inl hmem) with ht | ht
          · apply addToQueue_ignored
            simp only [Bool.or_eq_true, contains_iff]
            exact Or.inl (Or.inl ht)
          · apply addToQueue_ignored
            simp only [Bool.or_eq_true, contains_iff]
            exact Or.inl (Or.inr ht)

/-- Witness for claim C8: a duplicate submission on a concrete manager is
a no-op. -/
theorem claimC8_witness :
    addToQueue "a" plainOpt (addToQueue "a" plainOpt c2s0) =
      addToQueue "a" plainOpt c2s0 :=
  claimC8_submit_dedup.2 c2s0 "a" plainOpt plainOpt (by decide)

/-- The spec's S4 scenario: a default manager with `/a`, `/missing`, `/b`
submitted; both workers start, `/b` waits in the queue. -/
def c9s1 : ManagerState :=
  addToQueue "/b" plainOpt (addToQueue "/missing" plainOpt
    (addToQueue "/a" plainOpt (mkManager {})))

/-- All three workers settle: `/missing` with a 404 from the hash
endpoint, `/a` and `/b` normally. -/
def c9s4 : ManagerState :=
  settle "/b" TermKind.completedFull "hB" (settle "/a" TermKind.completedFull "hA"
    (settle "/missing" TermKind.notFound "" c9s1))

/-- Claim C9: a 404 on the hash call makes `_processFile` return the
file-not-found terminal result with no stage calls and no raised error;
the `file-not-found` event is published for that path; the settled path
carries the `FILE_NOT_FOUND` status and is not in the queue; a
re-submission of that path is ignored (no retry); and in the concrete
S4 scenario `/a` and `/b` still reach their normal completed terminal
states while `/missing` ends `FILE_NOT_FOUND`. -/
theorem claimC9_missing_file :
    (∀ (steps : Steps) (p : String) (env : PipelineEnv),
       env.hashResult = HashOutcome.notFound404 →
       processFile steps p env = ⟨[], TermKind.notFound⟩) ∧
    (∀ p : String,
       terminalEvents p TermKind.notFound = [ManagerEvent.fileNotFoundEvt p]) ∧
    (∀ (s : ManagerState) (p h : String), p ∉ s.queue →
       mapGet (settle p TermKind.notFound h s).processing p =
         some PreprocessingStatus.fileNotFound ∧
       p ∉ (settle p TermKind.notFound h s).queue) ∧
    (∀ (s : ManagerState) (p h : String) (o : QueueOptions), p ∉ s.queue →
       addToQueue p o (settle p TermKind.notFound h s) =
         settle p TermKind.notFound h s) ∧
    (getStatus "/a" c9s4 = some PreprocessingStatus.completed ∧
     getStatus "/b" c9s4 = some PreprocessingStatus.completed ∧
     getStatus "/missing" c9s4 = some PreprocessingStatus.fileNotFound ∧
     c9s4.queue = [] ∧
     mapHas c9s4.completed "/missing" = false) := by
  have key : ∀ (s : ManagerState) (p h : String), p ∉ s.queue →
      mapGet (settle p TermKind.notFound h s).processing p =
        some PreprocessingStatus.fileNotFound ∧
      p ∉ (settle p TermKind.notFound h s).queue := by
    intro s p h hq
    obtain ⟨h1, h2⟩ := processNext_not_queue
      { s with
          processing := mapSet s.processing p PreprocessingStatus.fileNotFound
          activeWorkers := s.activeWorkers - 1 } p hq
    exact ⟨h1.trans (mapGet_set_self s.processing p PreprocessingStatus.fileNotFound), h2⟩
  refine ⟨?_, ?_, key, ?_, ?_⟩
  · intro steps p env hh
    rcases env with ⟨hr, cc, nr, fr, tr⟩
    simp only at hh
    subst hh
    rfl
  · intro p
    rfl
  · intro s p h o hq
    obtain ⟨h1, _⟩ := key s p h hq
    apply addToQueue_ignored
    have hhas : mapHas (settle p TermKind.notFound h s).processing p = true := by
      unfold mapHas
      rw [h1]
      rfl
    simp [hhas]
  · refine ⟨by decide, by decide, by decide, by decide, by decide⟩

/-- Witness for claim C9 at a concrete missing-file settle. -/
theorem claimC9_witness :
    mapGet (settle "/m" TermKind.notFound "" (mkManager {})).processing "/m" =
      some PreprocessingStatus.fileNotFound ∧
    "/m" ∉ (settle "/m" TermKind.notFound "" (mkManager {})).queue :=
  claimC9_missing_file.2.2.1 (mkManager {}) "/m" "" (by decide)

/-- The consumed set is tracked inside the completed map: every
`doneItems` member has a `completed` entry. -/
def doneSubsetCompleted (s : ManagerState) : Prop :=
  ∀ q ∈ s.doneItems, mapHas s.completed q = true

instance (s : ManagerState) : Decidable (doneSubsetCompleted s) := by
  unfold doneSubsetCompleted
  infer_instance

theorem doneSubset_of_fields {s t : ManagerState}
    (hc : t.completed = s.completed) (hd : t.doneItems = s.doneItems)
    (h : doneSubsetCompleted s) : doneSubsetCompleted t := by
  intro q hq
  rw [hc]
  exact h q (by rw [← hd]; exact hq)

theorem setAdd_mem (l : List String) (p q : String) (h : q ∈ setAdd l p) :
    q ∈ l ∨ q = p := by
  unfold setAdd at h
  by_cases hc : l.contains p = true
  · rw [if_pos hc] at h; exact Or.inl h
  · rw [if_neg hc] at h
    rcases List.mem_append.mp h with h | h
    · exact Or.inl h
    · exact Or.inr (List.mem_singleton.mp h)

theorem setAdd_nodup (l : List String) (p : String) (h : l.Nodup) :
    (setAdd l p).Nodup := by
  unfold setAdd
  by_cases hc : l.contains p = true
  · rw [if_pos hc]; exact h
  · rw [if_neg hc]
    have hp : p ∉ l := fun hm => hc ((contains_iff l p).mpr hm)
    exact List.nodup_append.mpr
      ⟨h, List.nodup_singleton p,
       fun a ha hb => hp (by rw [← List.mem_singleton.mp hb]; exact ha)⟩

theorem clearDoneItems_subset (s : ManagerState)
    (hsub : doneSubsetCompleted s) (hnd : s.doneItems.Nodup) :
    doneSubsetCompleted (clearDoneItems s).1 := by
  intro q hq
  have hq2 : q ∈ s.doneItems.drop (min s.doneCount s.rollingWindow.resumeThreshold) := hq
  have hmem : q ∈ s.doneItems := List.mem_of_mem_drop hq2
  have hnin : q ∉ s.doneItems.take (min s.doneCount s.rollingWindow.resumeThreshold) := by
    intro hin
    exact List.disjoint_take_drop hnd (Nat.le_refl _) hin hq2
  have hget := mapGet_foldDelete_of_not_mem
      (s.doneItems.take (min s.doneCount s.rollingWindow.resumeThreshold)) s.completed q hnin
  show mapHas
      ((s.doneItems.take (min s.doneCount s.rollingWindow.resumeThreshold)).foldl
        (fun c p => mapDelete c p) s.completed) q = true
  unfold mapHas
  rw [hget]
  exact hsub q hmem

theorem resumeProcessing_subset (s : ManagerState)
    (hsub : doneSubsetCompleted s) (hnd : s.doneItems.Nodup) :
    doneSubsetCompleted (resumeProcessing s).1 := by
  unfold resumeProcessing
  by_cases hp : (!s.isPaused) = true
  · rw [if_pos hp]; exact hsub
  · rw [if_neg hp]
    apply doneSubset_of_fields (processNext_config _).1 (processNext_config _).2.1
    exact doneSubset_of_fields rfl rfl (clearDoneItems_subset s hsub hnd)

theorem markDone_subset (s : ManagerState) (p : String)
    (hsub : doneSubsetCompleted s) (hnd : s.doneItems.Nodup) :
    doneSubsetCompleted (markDone p s).1 := by
  unfold markDone
  by_cases h1 : (!(mapHas s.completed p)) = true
  · rw [if_pos h1]; exact hsub
  · rw [if_neg h1]
    have hhas : mapHas s.completed p = true := by simpa using h1
    have hs1 : doneSubsetCompleted
        { s with doneItems := setAdd s.doneItems p, doneCount := s.doneCount + 1 } := by
      intro q hq
      rcases setAdd_mem s.doneItems p q hq with hh | hh
      · exact hsub q hh
      · rw [hh]; exact hhas
    have hs1nd :
        ({ s with doneItems := setAdd s.doneItems p, doneCount := s.doneCount + 1 } :
          ManagerState).doneItems.Nodup :=
      setAdd_nodup s.doneItems p hnd
    by_cases h2 : shouldResume
        { s with doneItems := setAdd s.doneItems p, doneCount := s.doneCount + 1 } = true
    · rw [if_pos h2]
      exact resumeProcessing_subset _ hs1 hs1nd
    · rw [if_neg h2]; exact hs1

theorem settle_subset (s : ManagerState) (p : String) (t : TermKind) (h : String)
    (hsub : doneSubsetCompleted s) : doneSubsetCompleted (settle p t h s) := by
  cases t with
  | completedEarly =>
    apply doneSubset_of_fields (processNext_config _).1 (processNext_config _).2.1
    intro q hq
    exact mapHas_set_mono s.completed p q ⟨h⟩ (hsub q hq)
  | completedFull =>
    apply doneSubset_of_fields (processNext_config _).1 (processNext_config _).2.1
    intro q hq
    exact mapHas_set_mono s.completed p q ⟨h⟩ (hsub q hq)
  | errored =>
    apply doneSubset_of_fields (processNext_config _).1 (processNext_config _).2.1
    exact hsub
  | notFound =>
    apply doneSubset_of_fields (processNext_config _).1 (processNext_config _).2.1
    exact hsub
  | raised =>
    apply doneSubset_of_fields (processNext_config _).1 (processNext_config _).2.1
    exact hsub

theorem removeFile_subset (s : ManagerState) (p : String)
    (hsub : doneSubsetCompleted s) : doneSubsetCompleted (removeFile p s).1 := by
  intro q hq
  have hq2 : q ∈ s.doneItems.filter (fun r => r != p) := hq
  rw [List.mem_filter] at hq2
  obtain ⟨hmem, hne⟩ := hq2
  have hqp : q ≠ p := by simpa using hne
  show mapHas (mapDelete s.completed p) q = true
  unfold mapHas
  rw [mapGet_delete_ne s.completed p q hqp]
  exact hsub q hmem

theorem addToQueue_config (s : ManagerState) (p : String) (o : QueueOptions) :
    (addToQueue p o s).completed = s.completed ∧
    (addToQueue p o s).doneItems = s.doneItems := by
  unfold addToQueue
  by_cases h1 : (!s.enabled) = true
  · rw [if_pos h1]; exact ⟨rfl, rfl⟩
  · rw [if_neg h1]
    by_cases h2 : (s.queue.contains p || mapHas s.processing p || mapHas s.completed p) = true
    · rw [if_pos h2]; exact ⟨rfl, rfl⟩
    · rw [if_neg h2]
      by_cases h3 : (o.force &&
          (ManagerState.isPaused
            { s with queue := if o.priority then p :: s.queue else s.queue ++ [p] })) = true
      · rw [if_pos h3]
        unfold forceProcessFile
        by_cases h4 : ({ s with
            queue := if o.priority then p :: s.queue else s.queue ++ [p] } :
              ManagerState).queue.contains p = true
        · rw [if_pos h4]; exact ⟨rfl, rfl⟩
        · rw [if_neg h4]; exact ⟨rfl, rfl⟩
      · rw [if_neg h3]
        exact ⟨(processNext_config _).1, (processNext_config _).2.1⟩

theorem filter_partition_length (m : List (String × CompletedEntry)) (done : List String) :
    (m.filter (fun e => !(done.contains e.1))).length +
      (m.filter (fun e => done.contains e.1)).length = m.length := by
  induction m with
  | nil => rfl
  | cons e m ih =>
    by_cases hc : done.contains e.1 = true
    · simp only [List.filter_cons, hc, Bool.not_true, Bool.false_eq_true, if_false, if_true,
        List.length_cons]
      omega
    · have hc2 : done.contains e.1 = false := by simpa using hc
      simp only [List.filter_cons, hc2, Bool.not_false, Bool.false_eq_true, if_false, if_true,
        List.length_cons]
      omega

theorem filter_keys_length (m : List (String × CompletedEntry)) (done : List String) :
    (m.filter (fun e => done.contains e.1)).length =
      ((m.map Prod.fst).filter (fun k => done.contains k)).length := by
  induction m with
  | nil => rfl
  | cons e m ih =>
    by_cases hc : done.contains e.1 = true
    · simp only [List.filter_cons, List.map_cons, hc, if_true, List.length_cons]
      omega
    · have hc2 : done.contains e.1 = false := by simpa using hc
      simp only [List.filter_cons, List.map_cons, hc2, Bool.false_eq_true, if_false]
      exact ih

theorem nodup_filter_len (ks done : List String)
    (hks : ks.Nodup) (hdone : done.Nodup) (hsub : ∀ q ∈ done, q ∈ ks) :
    (ks.filter (fun k => done.contains k)).length = done.length := by
  have hfn : (ks.filter (fun k => done.contains k)).Nodup := hks.filter _
  have hmem : ∀ x, x ∈ ks.filter (fun k => done.contains k) ↔ x ∈ done := by
    intro x
    rw [List.mem_filter]
    constructor
    · rintro ⟨_, hx⟩
      exact (contains_iff done x).mp hx
    · intro hx
      exact ⟨hsub x hx, (contains_iff done x).mpr hx⟩
  have hts : (ks.filter (fun k => done.contains k)).toFinset = done.toFinset := by
    ext x
    simp only [List.mem_toFinset]
    exact hmem x
  calc (ks.filter (fun k => done.contains k)).length
      = (ks.filter (fun k => done.contains k)).toFinset.card :=
        (List.toFinset_card_of_nodup hfn).symm
    _ = done.toFinset.card := by rw [hts]
    _ = done.length := List.toFinset_card_of_nodup hdone

/-- Claim C10 (as amended): `addToQueue`, `markDone`, `removeFile`,
the internal clear-on-resume and worker settling all preserve the
invariant that the consumed set is a subset of the completed map's keys
— but `clearCompleted` does not (see the counterexample); and whenever
the invariant holds (with the sets duplicate-free, as JS `Map`/`Set`
keys are), `getReadyCount()` equals the size of the completed map minus
the size of the consumed set. -/
theorem claimC10_ready_count :
    (∀ (s : ManagerState) (p : String) (o : QueueOptions),
       doneSubsetCompleted s → doneSubsetCompleted (addToQueue p o s)) ∧
    (∀ (s : ManagerState) (p : String),
       doneSubsetCompleted s → s.doneItems.Nodup →
       doneSubsetCompleted (markDone p s).1) ∧
    (∀ (s : ManagerState) (p : String),
       doneSubsetCompleted s → doneSubsetCompleted (removeFile p s).1) ∧
    (∀ s : ManagerState,
       doneSubsetCompleted s → s.doneItems.Nodup →
       doneSubsetCompleted (resumeProcessing s).1) ∧
    (∀ (s : ManagerState) (p : String) (t : TermKind) (h : String),
       doneSubsetCompleted s → doneSubsetCompleted (settle p t h s)) ∧
    (∀ s : ManagerState,
       doneSubsetCompleted s → s.doneItems.Nodup → (s.completed.map Prod.fst).Nodup →
       getReadyCount s + s.doneItems.length = s.completed.length) := by
  refine ⟨?_, markDone_subset, removeFile_subset, resumeProcessing_subset,
    settle_subset, ?_⟩
  · intro s p o hsub
    exact doneSubset_of_fields (addToQueue_config s p o).1 (addToQueue_config s p o).2 hsub
  · intro s hsub hnd hkeys
    have h1 := filter_partition_length s.completed s.doneItems
    have h2 := filter_keys_length s.completed s.doneItems
    have h3 := nodup_filter_len (s.completed.map Prod.fst) s.doneItems hkeys hnd
      (fun q hq => (mapHas_iff_mem_keys s.completed q).mp (hsub q hq))
    unfold getReadyCount
    omega

/-- A reachable state: `a` submitted, completed and consumed; the subset
invariant holds here. -/
def c10pre : ManagerState :=
  (markDone "a" (settle "a" TermKind.completedFull "h"
    (addToQueue "a" plainOpt (mkManager {})))).1

/-- The state after `clearCompleted()`: the completed map is emptied but
the consumed set still holds `a`. -/
def c10post : ManagerState := clearCompleted c10pre

/-- Counterexample to claim C10 as stated: `clearCompleted` (one of the
listed public operations) breaks the subset invariant — afterwards the
consumed set still contains `a` while the completed map is empty, and
`getReadyCount()` (0) no longer equals `|completed| - |doneItems|`
(−1 over the integers). -/
theorem claimC10_counterexample :
    doneSubsetCompleted c10pre ∧
    c10post.doneItems = ["a"] ∧
    c10post.completed = [] ∧
    ¬ doneSubsetCompleted c10post ∧
    (getReadyCount c10post : Int) ≠
      (c10post.completed.length : Int) - (c10post.doneItems.length : Int) := by
  refine ⟨by decide, by decide, by decide, by decide, by decide⟩

/-- Witness for the amended claim C10 at the reachable pre-clear state. -/
theorem claimC10_witness :
    getReadyCount c10pre + c10pre.doneItems.length = c10pre.completed.length :=
  claimC10_ready_count.2.2.2.2.2 c10pre (by decide) (by decide) (by decide)

end Ansikten
